import Mathlib

/-!
Shallow embedding of the Brasspack-Visualizer sources (data_parser.py,
infiltrator.py, image_generator.py, backpack_visualizer.py,
container_infiltrator.py, visualizer.py) together with proofs settling the
frozen claims about the program.

Machine integers of Python are unbounded, so they are modelled by Int/Nat
directly; Python float arithmetic in `format_count` is modelled by exact
rational arithmetic (documented at the definition).
-/

namespace PyStr
/-- Check that `p` is an initial segment of `s` (Python string slicing helper). -/
def startsWithL : List Char → List Char → Bool
  | [], _ => true
  | _ :: _, [] => false
  | p :: ps, c :: cs => p == c && startsWithL ps cs
end PyStr

namespace PyStr
/-- Substring containment test, modelling the Python `in` operator on strings. -/
def containsSub (pat : List Char) : List Char → Bool
  | [] => startsWithL pat []
  | c :: cs => startsWithL pat (c :: cs) || containsSub pat cs
end PyStr

namespace PyStr
/-- String-level wrapper for `containsSub`. -/
def strContains (pat s : String) : Bool := containsSub pat.toList s.toList
end PyStr

namespace Infiltrator
/-- Lowercase hex digit character for a value below 16, as used by Python
`format(combined, "032x")`. -/
def hexChar (d : ℕ) : Char := if d < 10 then Char.ofNat (48 + d) else Char.ofNat (87 + d)
end Infiltrator

namespace Infiltrator
/-- Most-significant-first list of `w` base-16 digits of `n` (the zero-padded
hex rendering of Python `f-string` formatting with width `w`). -/
def hexDigits : ℕ → ℕ → List ℕ
  | 0, _ => []
  | w + 1, n => hexDigits w (n / 16) ++ [n % 16]
end Infiltrator

namespace Infiltrator
/-- Python `x & 0xFFFFFFFF` on a signed integer: two's-complement wrap to the
unsigned 32-bit range, i.e. the nonnegative residue modulo 2^32. -/
def mask32 (x : ℤ) : ℕ := (x % (4294967296 : ℤ)).toNat
end Infiltrator

namespace Infiltrator
/-- The 32 lowercase hex characters of a 128-bit value. -/
def uuidHex (combined : ℕ) : List Char := (hexDigits 32 combined).map hexChar
end Infiltrator

namespace Infiltrator
/-- Hyphenation `hex32[0:8]-hex32[8:12]-hex32[12:16]-hex32[16:20]-hex32[20:32]`
from `uuid_from_int_list`. -/
def uuidFormat (combined : ℕ) : String :=
  let h := uuidHex combined
  String.mk (h.take 8) ++ "-" ++ String.mk ((h.drop 8).take 4) ++ "-" ++
    String.mk ((h.drop 12).take 4) ++ "-" ++ String.mk ((h.drop 16).take 4) ++ "-" ++
    String.mk ((h.drop 20).take 12)
end Infiltrator

namespace Infiltrator
/-- The combination `(high << 64) | low` with `high = (p0 << 32) | p1` and
`low = (p2 << 32) | p3` computed by `uuid_from_int_list` on the masked parts. -/
def uuidCombine (parts : List ℕ) : ℕ :=
  match parts with
  | [p0, p1, p2, p3] => (((p0 <<< 32) ||| p1) <<< 64) ||| ((p2 <<< 32) ||| p3)
  | _ => 0
end Infiltrator

namespace Infiltrator
/-- infiltrator.uuid_from_int_list applied to a Python list of ints: `None` for
an empty or non-4-length input, otherwise the hyphenated hex rendering of the
128-bit combination of the 32-bit-masked parts. -/
def uuid_from_int_list (ints : List ℤ) : Option String :=
  if ints = [] then none
  else if ints.length ≠ 4 then none
  else some (uuidFormat (uuidCombine (ints.map mask32)))
end Infiltrator

namespace Infiltrator
/-- Value of a lowercase hex character (inverse of `hexChar`), used by the
spec-side resplit of the canonical string. -/
def hexVal (c : Char) : ℕ := if 97 ≤ c.toNat then c.toNat - 87 else c.toNat - 48
end Infiltrator

namespace Infiltrator
/-- Parse a big-endian list of hex characters. -/
def parseHex (cs : List Char) : ℕ := cs.foldl (fun a c => a * 16 + hexVal c) 0
end Infiltrator

namespace Infiltrator
/-- Numeric value of the hyphen-stripped hex digits of a UUID string. -/
def uuidParse (s : String) : ℕ := parseHex (s.toList.filter (fun c => c ≠ '-'))
end Infiltrator

namespace Infiltrator
/-- Spec-side decoder: strip hyphens, read the 32 hex digits as a 128-bit
value, split into high/low 64-bit halves and each half into two unsigned
32-bit groups. -/
def uuidResplit (s : String) : List ℕ :=
  [uuidParse s >>> 64 >>> 32, uuidParse s >>> 64 % 2 ^ 32,
   (uuidParse s % 2 ^ 64) >>> 32, uuidParse s % 2 ^ 64 % 2 ^ 32]
end Infiltrator

/-- First-match association-list lookup (Python dict access; keys of a real
document are unique, iteration order is insertion order). -/
def assocFind {α β : Type} [DecidableEq α] : List (α × β) → α → Option β
  | [], _ => none
  | (k, v) :: rest, key => if k = key then some v else assocFind rest key

namespace PyFloat
/-- Round to the nearest integer, ties to even.  Models the rounding used by
IEEE-754 binary64 arithmetic and by Python float formatting; the Python
sources compute with binary64 floats, which this development models by exact
rational arithmetic. -/
def rhe (q : ℚ) : ℤ :=
  if q - ⌊q⌋ < 1 / 2 then ⌊q⌋
  else if (1 : ℚ) / 2 < q - ⌊q⌋ then ⌊q⌋ + 1
  else if ⌊q⌋ % 2 = 0 then ⌊q⌋ else ⌊q⌋ + 1
end PyFloat

namespace PyFloat
/-- Python `int(q)`: truncation toward zero. -/
def pyInt (q : ℚ) : ℤ := if q < 0 then -⌊-q⌋ else ⌊q⌋
end PyFloat

namespace PyFloat
/-- Python `str` of an integer. -/
def intRepr (z : ℤ) : String := if z < 0 then "-" ++ Nat.repr z.natAbs else Nat.repr z.toNat
end PyFloat

namespace PyFloat
/-- Python `f-string` formatting `.1f` of a nonnegative value, one decimal
place, with the exact-rational model of the float (round half to even). -/
def fmt1 (q : ℚ) : String :=
  Nat.repr ((rhe (10 * q)).toNat / 10) ++ "." ++ Nat.repr ((rhe (10 * q)).toNat % 10)
end PyFloat

namespace PyStr
/-- Python `s.replace(".0", "")`: remove every non-overlapping occurrence of
`.0`, scanning left to right (data_parser.format_count). -/
def replaceDot0 : List Char → List Char
  | [] => []
  | '.' :: '0' :: rest => replaceDot0 rest
  | c :: rest => c :: replaceDot0 rest
end PyStr

namespace PyStr
/-- Python `s[:-2] if s.endswith(".0") else s` (backpack_visualizer
format_count). -/
def stripDot0L (l : List Char) : List Char :=
  if l.drop (l.length - 2) = ['.', '0'] then l.take (l.length - 2) else l
end PyStr

/-- Suffix tiers of format_count in order. -/
def tierSuffix : ℕ → String
  | 0 => "k"
  | 1 => "M"
  | 2 => "B"
  | _ => "T"

namespace DataParser
/-- Loop body of data_parser.format_count: divide by 1000 per tier, emit at
the first tier where the scaled value is below 1000 (integer rendering at or
above 10, else one decimal place with `.0` removed by substring replacement),
`INF` when the suffixes run out. -/
def fcLoop (n : ℚ) : List String → String
  | [] => "INF"
  | sfx :: rest =>
    let n2 := n / 1000
    if n2 < 1000 then
      if 10 ≤ n2 then PyFloat.intRepr (PyFloat.pyInt n2) ++ sfx
      else String.mk (PyStr.replaceDot0 (PyFloat.fmt1 n2).toList) ++ sfx
    else fcLoop n2 rest
end DataParser

namespace DataParser
/-- data_parser.format_count: counts below 10000 verbatim, otherwise the
suffix-tier loop. -/
def format_count (count : ℕ) : String :=
  if count < 10000 then Nat.repr count
  else fcLoop (count : ℚ) ["k", "M", "B", "T"]
end DataParser

namespace BackpackVisualizer
/-- Loop body of backpack_visualizer.format_count: identical to the
data_parser variant except that the trailing `.0` is removed by an endswith
check instead of substring replacement. -/
def fcLoop (n : ℚ) : List String → String
  | [] => "INF"
  | sfx :: rest =>
    let n2 := n / 1000
    if n2 < 1000 then
      if 10 ≤ n2 then PyFloat.intRepr (PyFloat.pyInt n2) ++ sfx
      else String.mk (PyStr.stripDot0L (PyFloat.fmt1 n2).toList) ++ sfx
    else fcLoop n2 rest
end BackpackVisualizer

namespace BackpackVisualizer
/-- backpack_visualizer.format_count. -/
def format_count (count : ℕ) : String :=
  if count < 10000 then Nat.repr count
  else fcLoop (count : ℚ) ["k", "M", "B", "T"]
end BackpackVisualizer

namespace Nbt
/-- Tagged tree model of a decoded document: compound nodes carry ordered
string-keyed bindings (a Python dict), list nodes a sequence, and the leaves
are integer or string scalars; `vNull` stands for Python None (also used for
an absent value).  Python `hasattr(node, "get")` and `hasattr(node, "keys")`
hold exactly for the compound nodes. -/
inductive Node where
  | map : List (String × Node) → Node
  | list : List Node → Node
  | vInt : ℤ → Node
  | vStr : String → Node
  | vNull : Node
end Nbt

namespace Nbt
/-- Key membership in a compound, Python `key in node`. -/
def hasKey (kvs : List (String × Node)) (k : String) : Bool :=
  (assocFind kvs k).isSome
end Nbt

namespace Nbt
/-- Python `hasattr(node, "get")` (equivalently `"keys"`). -/
def isMap : Node → Bool
  | .map _ => true
  | _ => false
end Nbt

namespace Nbt
/-- The payload predicate of the bounded search: a dict-like node that
directly contains the key `backpackContents`. -/
def containsBC : Node → Bool
  | .map kvs => hasKey kvs "backpackContents"
  | _ => false
end Nbt

namespace Nbt
/-- Children enqueued for the next layer when a compound without the payload
key is expanded: the value under `data` first (when present), then every
other key's value in iteration order — as in the loop bodies of
data_parser.parse_all_backpacks and infiltrator.search_binary_nbt. -/
def childrenOf : Node → List Node
  | .map kvs =>
    (match assocFind kvs "data" with
      | some d => [d]
      | none => []) ++ (kvs.filter (fun p => p.1 ≠ "data")).map (fun p => p.2)
  | _ => []
end Nbt

namespace Nbt
/-- Processing of one visited node: return the node itself if it holds the
payload key; otherwise look one level ahead through `data` and return that
child if it holds the key; otherwise contribute the children for the next
layer. -/
def processNode (n : Node) : Option Node × List Node :=
  match n with
  | .map kvs =>
    if hasKey kvs "backpackContents" then (some (.map kvs), [])
    else
      match assocFind kvs "data" with
      | some d =>
        if containsBC d then (some d, [])
        else (none, d :: (kvs.filter (fun p => p.1 ≠ "data")).map (fun p => p.2))
      | none => (none, (kvs.filter (fun p => p.1 ≠ "data")).map (fun p => p.2))
  | _ => (none, [])
end Nbt

namespace Nbt
/-- One iteration of the search loop over the queue: process nodes in order,
stopping at the first hit (the Python `break`), otherwise accumulate the next
layer. -/
def processLayer : List Node → Option Node × List Node
  | [] => (none, [])
  | n :: rest =>
    match processNode n with
    | (some p, _) => (some p, [])
    | (none, cs) => ((processLayer rest).1, cs ++ (processLayer rest).2)
end Nbt

namespace Nbt
/-- The `for _ in range(3)` bounded breadth-first loop. -/
def searchLoop : ℕ → List Node → Option Node
  | 0, _ => none
  | fuel + 1, layer =>
    match processLayer layer with
    | (some p, _) => some p
    | (none, next) => searchLoop fuel next
end Nbt

namespace Nbt
/-- Deep search for the data payload shared verbatim by
data_parser.parse_all_backpacks, backpack_visualizer.parse_all_backpacks and
infiltrator.search_binary_nbt: three layer iterations starting from the
document root. -/
def locatePayload (doc : Node) : Option Node := searchLoop 3 [doc]
end Nbt

namespace Nbt
/-- Candidates examined while one node is visited, in examination order: the
node itself when dict-like, then the value under its `data` key (the
one-level lookahead). -/
def candsOf : Node → List Node
  | .map kvs =>
    Node.map kvs ::
      (match assocFind kvs "data" with
        | some d => [d]
        | none => [])
  | _ => []
end Nbt

namespace Nbt
/-- Straight-line visit order of the bounded breadth-first search, without
the early exit: layer by layer, each visited node contributing its
candidates in order. -/
def visitSeq : ℕ → List Node → List Node
  | 0, _ => []
  | fuel + 1, layer => layer.flatMap candsOf ++ visitSeq fuel (layer.flatMap childrenOf)
end Nbt

namespace Nbt
/-- All tree nodes within `d` nesting levels below the given node, through
raw tree children (compound values and list elements alike). -/
def rawChildren : Node → List Node
  | .map kvs => kvs.map (fun p => p.2)
  | .list l => l
  | _ => []
end Nbt

namespace Nbt
def allNodesToDepth : ℕ → Node → List Node
  | 0, n => [n]
  | d + 1, n => n :: (rawChildren n).flatMap (allNodesToDepth d)
end Nbt

namespace Nbt
/-- A document whose payload sits three nesting levels below the root, the
last step through a `data` key: `root.x.y.data` holds `backpackContents`. -/
def wrappedDoc : Node :=
  Node.map [("x", Node.map [("y", Node.map [("data",
    Node.map [("backpackContents", Node.list [])])])])]
end Nbt

namespace Nbt
/-- infiltrator.safe_get: `obj.get(key)` with default None on dict-like
nodes; everything else raises and falls through to the default. -/
def safe_get (n : Node) (k : String) : Node :=
  match n with
  | .map kvs =>
    match assocFind kvs k with
    | some v => v
    | none => .vNull
  | _ => .vNull
end Nbt

namespace Nbt
/-- infiltrator.safe_get with an explicit default argument (the call sites
pass `[]` or an empty compound). -/
def safeGetD (n : Node) (k : String) (d : Node) : Node :=
  match n with
  | .map kvs =>
    match assocFind kvs k with
    | some v => v
    | none => d
  | _ => d
end Nbt

namespace Nbt
/-- Python truthiness of a modelled value. -/
def truthy : Node → Bool
  | .map kvs => !kvs.isEmpty
  | .list l => !l.isEmpty
  | .vInt n => decide (n ≠ 0)
  | .vStr s => decide (s ≠ "")
  | .vNull => false
end Nbt

namespace Nbt
/-- Python `a or b`. -/
def pyOr (a b : Node) : Node := if truthy a then a else b
end Nbt

namespace Nbt
/-- All-digit base-10 parse of a character list. -/
def parseDigits (cs : List Char) : Option ℕ :=
  if cs = [] then none
  else if cs.all Char.isDigit then
    some (cs.foldl (fun a c => a * 10 + (c.toNat - 48)) 0)
  else none
end Nbt

namespace Nbt
/-- Python `int(str)`: optional sign followed by digits, ValueError (none)
otherwise. -/
def parseIntStr (s : String) : Option ℤ :=
  match s.toList with
  | '-' :: rest => (parseDigits rest).map (fun n => -(n : ℤ))
  | '+' :: rest => (parseDigits rest).map (fun n => (n : ℤ))
  | cs => (parseDigits cs).map (fun n => (n : ℤ))
end Nbt

namespace Nbt
/-- Python `int(x)`: identity on ints, base-10 parse of strings, raised
TypeError (none) on lists, dicts and None. -/
def pyToInt : Node → Option ℤ
  | .vInt n => some n
  | .vStr s => parseIntStr s
  | _ => none
end Nbt

namespace Nbt
/-- Python iteration over a value as consumed by the Items loops and
uuid_from_int_list: lists yield their elements, dict-like nodes their keys,
strings their characters; ints and None raise (none). -/
def pyIter : Node → Option (List Node)
  | .list l => some l
  | .map kvs => some (kvs.map (fun p => Node.vStr p.1))
  | .vStr s => some (s.toList.map (fun c => Node.vStr (String.mk [c])))
  | _ => none
end Nbt

namespace Nbt
/-- infiltrator.iter_nbt_list: iterate, swallowing exceptions into an empty
sequence. -/
def iter_nbt_list (n : Node) : List Node :=
  match pyIter n with
  | some l => l
  | none => []
end Nbt

namespace Nbt
/-- infiltrator.uuid_from_int_list applied to an arbitrary tag value: falsy
input gives None, iteration and the per-element int conversions may raise
(caught, giving None), then the length-4 check and the encoding of
`uuid_from_int_list`. -/
def uuidFromNode (n : Node) : Option String :=
  if truthy n = false then none
  else
    match pyIter n with
    | none => none
    | some xs =>
      match xs.mapM pyToInt with
      | none => none
      | some parts =>
        if parts.length ≠ 4 then none
        else some (Infiltrator.uuidFormat (Infiltrator.uuidCombine
          (parts.map Infiltrator.mask32)))
end Nbt

namespace Nbt
/-- Python `s.lower()` then `s.replace('"', '')` then `s.strip()` applied to
`str(value or "")` — the item-id normalization of
data_parser.parse_all_backpacks. -/
def pyStrOf : Node → String
  | .vStr s => s
  | .vInt n => PyFloat.intRepr n
  | .vNull => "None"
  | .map _ => "<compound>"
  | .list _ => "<list>"
end Nbt

namespace Nbt
/-- Strip ASCII whitespace from both ends (Python str.strip). -/
def trimL (l : List Char) : List Char :=
  ((l.dropWhile Char.isWhitespace).reverse.dropWhile Char.isWhitespace).reverse
end Nbt

namespace Nbt
def normId (n : Node) : String :=
  String.mk (trimL (((pyStrOf (pyOr n (Node.vStr ""))).toList.map
    Char.toLower).filter (fun c => c ≠ '"')))
end Nbt

namespace Nbt
/-- `int(safe_get(it, "count") or 1)` — absent or falsy counts default to 1
before the int conversion; a present unparseable value raises. -/
def itemCount (it : Node) : Option ℤ :=
  pyToInt (pyOr (safe_get it "count") (Node.vInt 1))
end Nbt

namespace Nbt
/-- `int(safe_get(it, "Slot") if safe_get(it, "Slot") is not None else i)`. -/
def itemSlot (it : Node) (i : ℕ) : Option ℤ :=
  match safe_get it "Slot" with
  | Node.vNull => some (i : ℤ)
  | v => pyToInt v
end Nbt

namespace Nbt
/-- One normalized inventory item. -/
structure InvEntry where
  id : String
  count : ℤ
end Nbt

namespace Nbt
/-- Python dict assignment `inv_map[slot] = ...`: overwrite in place when the
key exists, else append (insertion order preserved). -/
def upsert (m : List (ℤ × InvEntry)) (k : ℤ) (v : InvEntry) : List (ℤ × InvEntry) :=
  if m.any (fun p => p.1 = k) then
    m.map (fun p => if p.1 = k then (k, v) else p)
  else m ++ [(k, v)]
end Nbt

namespace Nbt
/-- The inventory loop of data_parser.parse_all_backpacks: enumerate the
items, normalize id/count/slot, keep only items whose id is nonempty and
free of the substring `air`; an int conversion failure raises out of the
whole record.  Arguments: remaining items, running index, accumulator. -/
def invGo : List Node → ℕ → List (ℤ × InvEntry) → Option (List (ℤ × InvEntry))
  | [], _, acc => some acc
  | it :: rest, i, acc =>
    match itemCount it with
    | none => none
    | some cnt =>
      match itemSlot it i with
      | none => none
      | some slot =>
        let iid := normId (safe_get it "id")
        invGo rest (i + 1)
          (if iid ≠ "" ∧ PyStr.strContains "air" iid = false then
            upsert acc slot ⟨iid, cnt⟩
          else acc)
end Nbt

namespace Nbt
def buildInvMap (items : List Node) : Option (List (ℤ × InvEntry)) := invGo items 0 []
end Nbt

namespace Nbt
/-- The upgrade loop: same id/count extraction without slot tracking, keeping
every nonempty id in order. -/
def upgGo : List Node → Option (List (String × ℤ))
  | [] => some []
  | it :: rest =>
    match itemCount it with
    | none => none
    | some cnt =>
      (upgGo rest).map (fun l =>
        let iid := normId (safe_get it "id")
        if iid ≠ "" then (iid, cnt) :: l else l)
end Nbt

namespace Nbt
/-- owner_index.get(uuid, {}) followed by the playerName/accessTime lookups
with defaults "Unknown" and None. -/
def ownerLookup (idx : List (String × (String × Option ℤ))) (uuid : String) :
    String × Option ℤ :=
  match assocFind idx uuid with
  | some r => r
  | none => ("Unknown", none)
end Nbt

namespace Nbt
/-- One normalized backpack record as yielded by
data_parser.parse_all_backpacks. -/
structure BackpackRec where
  backpackUuid : String
  playerName : String
  accessTimeRaw : Option ℤ
  inventory : List (ℤ × InvEntry)
  upgrades : List (String × ℤ)
end Nbt

namespace Nbt
/-- The per-entry body of the data_parser.parse_all_backpacks loop: none
models both the `continue` on an undecodable uuid and the per-record
exception handler. -/
def normalizeEntry (ownerIndex : List (String × (String × Option ℤ))) (bc : Node) :
    Option BackpackRec :=
  match uuidFromNode (pyOr (safe_get bc "uuid") (safe_get bc "backpackUuid")) with
  | none => none
  | some uuid =>
    let contents := pyOr (safe_get bc "contents") (Node.map [])
    let inv_tag := safeGetD contents "inventory" (Node.map [])
    let items := safeGetD inv_tag "Items" (Node.list [])
    match buildInvMap (iter_nbt_list items) with
    | none => none
    | some inv_map =>
      let upg_tag := safeGetD contents "upgradeInventory" (Node.map [])
      let upgs := safeGetD upg_tag "Items" (Node.list [])
      match upgGo (iter_nbt_list upgs) with
      | none => none
      | some upg_list =>
        let orec := ownerLookup ownerIndex uuid
        some { backpackUuid := uuid, playerName := orec.1, accessTimeRaw := orec.2,
               inventory := inv_map, upgrades := upg_list }
end Nbt

namespace Nbt
/-- The record stream of parse_all_backpacks over the backpackContents list:
per-record failures are skipped, the sequence continues. -/
def parseRecords (idx : List (String × (String × Option ℤ))) (contents_list : Node) :
    List BackpackRec :=
  (iter_nbt_list contents_list).filterMap (normalizeEntry idx)
end Nbt

namespace Nbt
/-- A backpack entry whose single inventory item carries an unparseable
count value ("abc"). -/
def entryBadCount : Node :=
  Node.map [("uuid", Node.list [Node.vInt 0, Node.vInt 1, Node.vInt 0, Node.vInt 2]),
    ("contents", Node.map [("inventory", Node.map [("Items", Node.list
      [Node.map [("id", Node.vStr "minecraft:stone"), ("count", Node.vStr "abc")]])])])]
end Nbt

namespace Nbt
/-- The same entry with the count field absent. -/
def entryAbsentCount : Node :=
  Node.map [("uuid", Node.list [Node.vInt 0, Node.vInt 1, Node.vInt 0, Node.vInt 2]),
    ("contents", Node.map [("inventory", Node.map [("Items", Node.list
      [Node.map [("id", Node.vStr "minecraft:stone")]])])])]
end Nbt

namespace Nbt
/-- An entry containing one air item and one stone item. -/
def entryWithAir : Node :=
  Node.map [("uuid", Node.list [Node.vInt 0, Node.vInt 1, Node.vInt 0, Node.vInt 2]),
    ("contents", Node.map [("inventory", Node.map [("Items", Node.list
      [Node.map [("id", Node.vStr "minecraft:air")],
       Node.map [("id", Node.vStr "minecraft:stone"), ("count", Node.vInt 7)]])])])]
end Nbt

namespace Font
/-- In-memory RGBA image: dimensions plus a pixel function. -/
structure Img where
  w : ℕ
  h : ℕ
  px : ℕ → ℕ → ℕ × ℕ × ℕ × ℕ
end Font

namespace Font
/-- A transparent canvas, `Image.new("RGBA", (w, h), (0, 0, 0, 0))`. -/
def blankImg (w h : ℕ) : Img := ⟨w, h, fun _ _ => (0, 0, 0, 0)⟩
end Font

namespace Font
/-- Alpha channel of a pixel. -/
def alphaOf (p : ℕ × ℕ × ℕ × ℕ) : ℕ := p.2.2.2
end Font

namespace Font
/-- `canvas.paste(solid_color_layer_of_size(src), (ox, oy), mask)` where the
mask is the alpha channel of `src`: inside the pasted rectangle, pixels whose
mask alpha is positive take the color (PIL blends partial alpha; the model
treats any positive alpha as opaque). -/
def pasteMasked (canvas : Img) (color : ℕ × ℕ × ℕ × ℕ) (src : Img) (ox oy : ℕ) : Img :=
  { canvas with px := fun x y =>
      if ox ≤ x ∧ x < ox + src.w ∧ oy ≤ y ∧ y < oy + src.h ∧
          0 < alphaOf (src.px (x - ox) (y - oy)) then
        color
      else canvas.px x y }
end Font

namespace Font
/-- The glyph map of a loaded BitmapFont: character to (glyph image, tight
width), in insertion order, plus the sheet cell height. -/
structure BitmapFont where
  chars : List (Char × (Img × ℕ))
  char_height : ℕ
end Font

namespace Font
/-- `self.chars.get(c, self.chars.get('?'))`: the specific glyph when
present, else the question-mark glyph, else None. -/
def glyphFor (f : BitmapFont) (c : Char) : Option (Img × ℕ) :=
  match assocFind f.chars c with
  | some tc => some tc
  | none => assocFind f.chars '?'
end Font

namespace Font
/-- `text_chars` after the truthiness filter: the resolved glyph entries, in
order, with unresolvable characters removed. -/
def renderResolve (f : BitmapFont) (text : List Char) : List (Img × ℕ) :=
  (text.map (glyphFor f)).filterMap id
end Font

namespace Font
/-- BitmapFont.render of image_generator.py and backpack_visualizer.py
(identical bodies): resolve the glyph entries, compute the total width as the
sum of tight widths plus a 1px gap between consecutive entries, then draw
each glyph (shadow first at offset (+1, +1) in quarter-brightness when
requested) through its own alpha mask while the cursor advances by width +
gap.  Returns (canvas, total width, height); (none, 0, 0) for empty text or
when nothing resolves.  The loop's guard for a falsy glyph image (advance
without drawing) is unreachable for maps produced by load, where every entry
carries an actual image. -/
def render (f : BitmapFont) (text : List Char) (color : ℕ × ℕ × ℕ) (shadow : Bool) :
    Option Img × ℕ × ℕ :=
  if text.isEmpty then (none, 0, 0)
  else
    let text_chars := renderResolve f text
    if text_chars.isEmpty then (none, 0, 0)
    else
      let gap := 1
      let total_width := (text_chars.map Prod.snd).sum +
        max 0 ((text_chars.length - 1) * gap)
      let height := f.char_height
      let canvas0 := blankImg (total_width + 2) (height + 2)
      let shadow_color := (color.1 / 4, color.2.1 / 4, color.2.2 / 4, 255)
      let main_color := (color.1, color.2.1, color.2.2, 255)
      let final := (text_chars.foldl (fun (acc : Img × ℕ) tc =>
        let c1 := if shadow then pasteMasked acc.1 shadow_color tc.1 (acc.2 + 1) 1
          else acc.1
        let c2 := pasteMasked c1 main_color tc.1 acc.2 0
        (c2, acc.2 + tc.2 + gap)) (canvas0, 0)).1
      (some final, total_width, height)
end Font

namespace Font
/-- A font with a single glyph for the character a and no question-mark
fallback; the glyph has tight width 5. -/
def fontNoFallback : BitmapFont := ⟨[('a', (blankImg 8 8, 5))], 8⟩
end Font

namespace Font
/-- Width formula asserted by the claim: every character of the string
advances the cursor by its measured width (taken as 0 when the character has
no glyph at all) plus one pixel of gap between consecutive characters of the
string, independent of which glyphs drew pixels. -/
def renderWidthClaimed (f : BitmapFont) (text : List Char) : ℕ :=
  (text.map (fun c =>
    match glyphFor f c with
    | some tc => tc.2
    | none => 0)).sum + (text.length - 1) * 1
end Font

namespace PyStr
/-- Python `s.replace(pat, "")` for a nonempty pattern: remove every
non-overlapping occurrence, scanning left to right. -/
def removeAllSubL (pat : List Char) : List Char → List Char
  | [] => []
  | c :: cs =>
    if pat ≠ [] ∧ startsWithL pat (c :: cs) = true then
      removeAllSubL pat (cs.drop (pat.length - 1))
    else c :: removeAllSubL pat cs
termination_by l => l.length
decreasing_by
  · simp only [List.length_cons, List.length_drop]
    omega
  · simp only [List.length_cons]
    omega
end PyStr

namespace ImageGenerator
/-- An atlas rectangle (x, y, width, height); the Python function crops the
atlas image to it, so the selected rectangle stands for the returned
sub-image. -/
abbrev Rect := ℕ × ℕ × ℕ × ℕ
end ImageGenerator

namespace ImageGenerator
/-- `str(item_id).replace('"', '').replace("'", "").strip().lower()`. -/
def cleanId (s : String) : String :=
  String.mk ((Nbt.trimL ((s.toList.filter (fun c => c ≠ '"')).filter
    (fun c => c ≠ Char.ofNat 39))).map Char.toLower)
end ImageGenerator

namespace ImageGenerator
/-- image_generator.get_texture_from_atlas: exact normalized id, else the id
with the default namespace prepended when it lacks a namespace separator,
else the id with the default namespace removed when it starts with it, else
the container substring fallbacks chest/barrel/shulker, else None (the
MISSING_IDS diagnostic bookkeeping does not affect the returned value and is
not modelled). -/
def get_texture_from_atlas (atlas : List (String × Rect)) (item_id : String) :
    Option Rect :=
  let clean_id := cleanId item_id
  let c0 : Option Rect := assocFind atlas clean_id
  let c1 := if c0 = none ∧ PyStr.strContains ":" clean_id = false then
      assocFind atlas ("minecraft:" ++ clean_id) else c0
  let c2 := if c1 = none ∧ PyStr.startsWithL "minecraft:".toList clean_id.toList = true then
      assocFind atlas (String.mk (PyStr.removeAllSubL "minecraft:".toList clean_id.toList))
    else c1
  let c3 := if c2 = none ∧ PyStr.strContains "chest" clean_id = true then
      assocFind atlas "chest" else c2
  let c4 := if c3 = none ∧ PyStr.strContains "barrel" clean_id = true then
      assocFind atlas "barrel" else c3
  let c5 := if c4 = none ∧ PyStr.strContains "shulker" clean_id = true then
      assocFind atlas "shulker_box" else c4
  c5
end ImageGenerator

namespace ImageGenerator
/-- The resolution attempts of get_texture_from_atlas in source order, each
guarded by its applicability condition. -/
def resolutionSteps (atlas : List (String × Rect)) (c : String) : List (Option Rect) :=
  [assocFind atlas c,
   if PyStr.strContains ":" c = false then assocFind atlas ("minecraft:" ++ c) else none,
   if PyStr.startsWithL "minecraft:".toList c.toList = true then
     assocFind atlas (String.mk (PyStr.removeAllSubL "minecraft:".toList c.toList))
   else none,
   if PyStr.strContains "chest" c = true then assocFind atlas "chest" else none,
   if PyStr.strContains "barrel" c = true then assocFind atlas "barrel" else none,
   if PyStr.strContains "shulker" c = true then assocFind atlas "shulker_box" else none]
end ImageGenerator

namespace ImageGenerator
/-- Last colon-separated segment, Python `s.split(":")[-1]`. -/
def lastColonSeg (l : List Char) : List Char :=
  l.foldl (fun acc c => if c = ':' then [] else acc ++ [c]) []
end ImageGenerator

namespace ImageGenerator
def shortName (s : String) : String := String.mk (lastColonSeg s.toList)
end ImageGenerator

namespace ImageGenerator
def endsWithL (pat l : List Char) : Bool := PyStr.startsWithL pat.reverse l.reverse
end ImageGenerator

namespace ImageGenerator
/-- Modelled from the claim (this step exists in
backpack_visualizer.get_texture_from_atlas but not in the cited
image_generator version): after the namespace and container fallbacks fail,
match the first atlas key in map iteration order whose short name equals the
id's short name. -/
def get_texture_claimed (atlas : List (String × Rect)) (item_id : String) :
    Option Rect :=
  match get_texture_from_atlas atlas item_id with
  | some r => some r
  | none =>
    let c := cleanId item_id
    (atlas.find? (fun p => p.1 == shortName c ||
      endsWithL (":" ++ shortName c).toList p.1.toList)).map (fun p => p.2)
end ImageGenerator

namespace ImageGenerator
/-- An atlas holding only the namespaced key foo:apple. -/
def atlasShort : List (String × Rect) := [("foo:apple", (1, 2, 3, 4))]
end ImageGenerator

namespace ImageGenerator
/-- Header layout computed by generate_backpack_image for a backpack record
(is_container false, three text lines), as a function of the measured
maximal text width and the number of upgrades.  Constants from the source:
SLOT_SIZE 128, PADDING 24, GRID_COLS 9, DEFAULT_HEADER_HEIGHT 240,
TEXT_SCALE_LABEL 6, head_size 128, line_h 65. -/
structure BackpackLayout where
  collision : Bool
  upgY : ℤ
  upgStartX : ℤ
  headerHeight : ℤ
  textStartX : ℤ
  textEndX : ℤ
  textBlockBottom : ℤ
  imgWidth : ℤ
end ImageGenerator

namespace ImageGenerator
def backpackLayout (maxTextWidth : ℤ) (upgCount : ℕ) : BackpackLayout :=
  let head_size : ℤ := 128
  let head_x : ℤ := 24
  let text_start_x := head_x + head_size + 32
  let text_end_x := text_start_x + maxTextWidth
  let img_width : ℤ := 9 * 128 + 24 * 2
  let line_h : ℤ := 65
  let text_y_base : ℤ := 24 + 10
  let text_block_bottom := text_y_base + 3 * line_h
  let min_header_height := text_block_bottom + 24
  let header_height := max 240 min_header_height
  if 0 < upgCount then
    let upg_block_width := (upgCount : ℤ) * 128 + max 0 ((upgCount : ℤ) - 1) * 10
    let upg_default_start_x := img_width - 24 - upg_block_width
    if text_end_x + 20 > upg_default_start_x then
      let label_h : ℤ := 8 * 6
      let upg_y := text_block_bottom + label_h + 20
      ⟨true, upg_y, text_start_x, max header_height (upg_y + 128 + 20),
        text_start_x, text_end_x, text_block_bottom, img_width⟩
    else
      ⟨false, 24 + 60, img_width - 24 - 128, header_height,
        text_start_x, text_end_x, text_block_bottom, img_width⟩
  else
    ⟨false, 24 + 60, img_width - 24 - 128, header_height,
      text_start_x, text_end_x, text_block_bottom, img_width⟩
end ImageGenerator

namespace ImageGenerator
/-- The x position of the i-th upgrade slot in the drawing loop: growing
rightward from upg_start_x on collision, else leftward from
img_width - PADDING - SLOT_SIZE. -/
def upgSlotX (L : BackpackLayout) (i : ℕ) : ℤ :=
  if L.collision then L.upgStartX + (i : ℤ) * (128 + 10)
  else (L.imgWidth - 24 - 128) - (i : ℤ) * (128 + 10)
end ImageGenerator

namespace Infiltrator
theorem mask32_lt (x : ℤ) : mask32 x < 2 ^ 32 := by
  have h1 : x % (4294967296 : ℤ) < 4294967296 :=
    Int.emod_lt_of_pos x (by norm_num)
  have h2 : (0 : ℤ) ≤ x % (4294967296 : ℤ) := Int.emod_nonneg x (by norm_num)
  unfold mask32
  omega
end Infiltrator

namespace Infiltrator
theorem lor_shiftLeft_add {b : ℕ} (a k : ℕ) (hb : b < 2 ^ k) :
    (a <<< k) ||| b = a * 2 ^ k + b := by
  apply Nat.eq_of_testBit_eq
  intro i
  rw [Nat.testBit_lor, Nat.testBit_shiftLeft]
  rcases lt_or_ge i k with h | h
  · have hd : decide (i ≥ k) = false := by simp; omega
    rw [hd, Bool.false_and, Bool.false_or]
    rw [Nat.testBit_to_div_mod, Nat.testBit_to_div_mod]
    have hpow : 2 ^ k = 2 ^ (k - i) * 2 ^ i := by
      rw [← pow_add]; congr 1; omega
    have hdiv : (a * 2 ^ k + b) / 2 ^ i = 2 ^ (k - i) * a + b / 2 ^ i := by
      rw [hpow, show a * (2 ^ (k - i) * 2 ^ i) + b = 2 ^ i * (2 ^ (k - i) * a) + b by ring,
        Nat.mul_add_div (Nat.two_pow_pos i)]
    rw [hdiv]
    have hki : ∃ j, k - i = j + 1 := ⟨k - i - 1, by omega⟩
    obtain ⟨j, hj⟩ := hki
    rw [hj, pow_succ]
    rw [show 2 ^ j * 2 * a + b / 2 ^ i = 2 * (2 ^ j * a) + b / 2 ^ i by ring, Nat.mul_add_mod]
  · have hd : decide (i ≥ k) = true := by simp; omega
    rw [hd, Bool.true_and]
    have hbi : b.testBit i = false :=
      Nat.testBit_lt_two_pow (lt_of_lt_of_le hb (Nat.pow_le_pow_right (by norm_num) h))
    rw [hbi, Bool.or_false]
    rw [Nat.testBit_to_div_mod, Nat.testBit_to_div_mod]
    have hpow : 2 ^ i = 2 ^ k * 2 ^ (i - k) := by
      rw [← pow_add]; congr 1; omega
    have hdiv : (a * 2 ^ k + b) / 2 ^ i = a / 2 ^ (i - k) := by
      rw [hpow, ← Nat.div_div_eq_div_mul,
        show a * 2 ^ k + b = 2 ^ k * a + b by ring,
        Nat.mul_add_div (Nat.two_pow_pos k), Nat.div_eq_of_lt hb, Nat.add_zero]
    rw [hdiv]
end Infiltrator

namespace Infiltrator
theorem hexDigits_lt (w n : ℕ) : ∀ d ∈ hexDigits w n, d < 16 := by
  induction w generalizing n with
  | zero => intro d hd; simp [hexDigits] at hd
  | succ w ih =>
    intro d hd
    simp only [hexDigits, List.mem_append, List.mem_singleton] at hd
    rcases hd with hd | hd
    · exact ih _ d hd
    · omega
end Infiltrator

namespace Infiltrator
theorem hexDigits_length (w n : ℕ) : (hexDigits w n).length = w := by
  induction w generalizing n with
  | zero => rfl
  | succ w ih => simp [hexDigits, ih]
end Infiltrator

namespace Infiltrator
theorem parseHex_foldl (w : ℕ) : ∀ n a, n < 16 ^ w →
    List.foldl (fun a c => a * 16 + hexVal c) a ((hexDigits w n).map hexChar) =
      a * 16 ^ w + n := by
  induction w with
  | zero =>
    intro n a hn
    interval_cases n
    simp [hexDigits]
  | succ w ih =>
    intro n a hn
    have hdiv : n / 16 < 16 ^ w := by
      rw [Nat.div_lt_iff_lt_mul (by norm_num)]
      calc n < 16 ^ (w + 1) := hn
        _ = 16 ^ w * 16 := by rw [pow_succ]
    simp only [hexDigits, List.map_append, List.foldl_append, ih (n / 16) a hdiv]
    have hmod : n % 16 < 16 := Nat.mod_lt _ (by norm_num)
    have hval : hexVal (hexChar (n % 16)) = n % 16 := by
      have : ∀ d, d < 16 → hexVal (hexChar d) = d := by decide
      exact this _ hmod
    simp only [List.map_cons, List.map_nil, List.foldl_cons, List.foldl_nil, hval]
    rw [pow_succ]
    have := Nat.div_add_mod n 16
    ring_nf
    omega
end Infiltrator

namespace Infiltrator
theorem hexChar_ne_hyphen : ∀ d, d < 16 → hexChar d ≠ '-' := by decide
end Infiltrator

namespace Infiltrator
theorem uuidResplit_format {combined : ℕ} (hc : combined < 2 ^ 128) :
    uuidResplit (uuidFormat combined) =
      [combined >>> 96 % 2 ^ 32, combined >>> 64 % 2 ^ 32,
       combined >>> 32 % 2 ^ 32, combined % 2 ^ 32] := by
  have hlen : (uuidHex combined).length = 32 := by
    simp [uuidHex, hexDigits_length]
  have hfilter :
      ((uuidFormat combined).toList.filter (fun c => c ≠ '-')) = uuidHex combined := by
    have hmem : ∀ c ∈ uuidHex combined, c ≠ '-' := by
      intro c hc'
      simp only [uuidHex, List.mem_map] at hc'
      obtain ⟨d, hd, rfl⟩ := hc'
      exact hexChar_ne_hyphen d (hexDigits_lt 32 combined d hd)
    have hsub : ∀ l : List Char, (∀ c ∈ l, c ≠ '-') →
        l.filter (fun c => c ≠ '-') = l := by
      intro l hl
      apply List.filter_eq_self.mpr
      intro c hcl
      simpa using hl c hcl
    have hparts : (uuidFormat combined).toList =
        (uuidHex combined).take 8 ++ ['-'] ++ ((uuidHex combined).drop 8).take 4 ++ ['-'] ++
          ((uuidHex combined).drop 12).take 4 ++ ['-'] ++
          ((uuidHex combined).drop 16).take 4 ++ ['-'] ++
          ((uuidHex combined).drop 20).take 12 := by
      simp [uuidFormat, String.toList]
    rw [hparts]
    simp only [List.filter_append]
    have hh : ∀ n : ℕ, ((uuidHex combined).drop n).filter (fun c => c ≠ '-') =
        (uuidHex combined).drop n := by
      intro n
      exact hsub _ (fun c hcl => hmem c (List.mem_of_mem_drop hcl))
    have ht : ∀ m n : ℕ,
        (((uuidHex combined).drop n).take m).filter (fun c => c ≠ '-') =
          ((uuidHex combined).drop n).take m := by
      intro m n
      exact hsub _ (fun c hcl => hmem c (List.mem_of_mem_drop (List.mem_of_mem_take hcl)))
    have ht0 : ((uuidHex combined).take 8).filter (fun c => c ≠ '-') =
        (uuidHex combined).take 8 := by
      exact hsub _ (fun c hcl => hmem c (List.mem_of_mem_take hcl))
    have hhyph : (['-'] : List Char).filter (fun c => c ≠ '-') = [] := by decide
    rw [ht0, hhyph, ht, ht, ht, ht]
    simp only [List.append_nil, List.nil_append, List.append_assoc]
    have h12 : ((uuidHex combined).drop 8).drop 4 = (uuidHex combined).drop 12 := by
      rw [List.drop_drop]
    have h16 : ((uuidHex combined).drop 12).drop 4 = (uuidHex combined).drop 16 := by
      rw [List.drop_drop]
    have h20 : ((uuidHex combined).drop 16).drop 4 = (uuidHex combined).drop 20 := by
      rw [List.drop_drop]
    have hlast : ((uuidHex combined).drop 20).take 12 = (uuidHex combined).drop 20 := by
      apply List.take_of_length_le
      simp [hlen]
    rw [hlast, ← h20, ← h16, ← h12]
    rw [List.take_append_drop, List.take_append_drop, List.take_append_drop,
      List.take_append_drop]
  have hparse : parseHex (uuidHex combined) = combined := by
    have := parseHex_foldl 32 combined 0 (by norm_num at hc ⊢; omega)
    simpa [parseHex, uuidHex] using this
  have hup : uuidParse (uuidFormat combined) = combined := by
    rw [uuidParse, hfilter, hparse]
  have hb96 : combined / 2 ^ 96 < 2 ^ 32 := by
    rw [Nat.div_lt_iff_lt_mul (by positivity)]
    calc combined < 2 ^ 128 := hc
      _ = 2 ^ 32 * 2 ^ 96 := by norm_num
  have e1 : combined >>> 64 >>> 32 = combined >>> 96 % 2 ^ 32 := by
    rw [Nat.shiftRight_eq_div_pow, Nat.shiftRight_eq_div_pow, Nat.shiftRight_eq_div_pow,
      Nat.div_div_eq_div_mul, show (2 : ℕ) ^ 64 * 2 ^ 32 = 2 ^ 96 by norm_num,
      Nat.mod_eq_of_lt hb96]
  have e2 : (combined % 2 ^ 64) >>> 32 = combined >>> 32 % 2 ^ 32 := by
    rw [Nat.shiftRight_eq_div_pow, Nat.shiftRight_eq_div_pow,
      show (2 : ℕ) ^ 64 = 2 ^ 32 * 2 ^ 32 by norm_num, Nat.mod_mul_right_div_self]
  have e3 : combined % 2 ^ 64 % 2 ^ 32 = combined % 2 ^ 32 :=
    Nat.mod_mod_of_dvd _ (by norm_num)
  rw [uuidResplit, hup, e1, e2, e3]
end Infiltrator

namespace Infiltrator
theorem uuidCombine_parts {p0 p1 p2 p3 : ℕ} (h0 : p0 < 2 ^ 32) (h1 : p1 < 2 ^ 32)
    (h2 : p2 < 2 ^ 32) (h3 : p3 < 2 ^ 32) :
    uuidCombine [p0, p1, p2, p3] =
      ((p0 * 2 ^ 32 + p1) * 2 ^ 64) + (p2 * 2 ^ 32 + p3) := by
  have hdef : uuidCombine [p0, p1, p2, p3] =
      (((p0 <<< 32) ||| p1) <<< 64) ||| ((p2 <<< 32) ||| p3) := rfl
  rw [hdef, lor_shiftLeft_add p0 32 h1, lor_shiftLeft_add p2 32 h3]
  exact lor_shiftLeft_add _ 64 (by nlinarith)
end Infiltrator

namespace Infiltrator
theorem uuidCombine_resplit {p0 p1 p2 p3 : ℕ} (h0 : p0 < 2 ^ 32) (h1 : p1 < 2 ^ 32)
    (h2 : p2 < 2 ^ 32) (h3 : p3 < 2 ^ 32) :
    uuidResplit (uuidFormat (uuidCombine [p0, p1, p2, p3])) = [p0, p1, p2, p3] := by
  have hval := uuidCombine_parts h0 h1 h2 h3
  set combined := uuidCombine [p0, p1, p2, p3] with hcdef
  have hc : combined < 2 ^ 128 := by rw [hval]; nlinarith
  rw [uuidResplit_format hc]
  have hcomb : combined = p0 * 2 ^ 96 + p1 * 2 ^ 64 + p2 * 2 ^ 32 + p3 := by
    rw [hval]; ring
  have g0 : combined >>> 96 % 2 ^ 32 = p0 := by
    rw [Nat.shiftRight_eq_div_pow, hcomb]
    have hr : p1 * 2 ^ 64 + p2 * 2 ^ 32 + p3 < 2 ^ 96 := by nlinarith
    rw [show p0 * 2 ^ 96 + p1 * 2 ^ 64 + p2 * 2 ^ 32 + p3 =
      2 ^ 96 * p0 + (p1 * 2 ^ 64 + p2 * 2 ^ 32 + p3) by ring,
      Nat.mul_add_div (by positivity), Nat.div_eq_of_lt hr, Nat.add_zero,
      Nat.mod_eq_of_lt h0]
  have g1 : combined >>> 64 % 2 ^ 32 = p1 := by
    rw [Nat.shiftRight_eq_div_pow, hcomb]
    have hr : p2 * 2 ^ 32 + p3 < 2 ^ 64 := by nlinarith
    rw [show p0 * 2 ^ 96 + p1 * 2 ^ 64 + p2 * 2 ^ 32 + p3 =
      2 ^ 64 * (p0 * 2 ^ 32 + p1) + (p2 * 2 ^ 32 + p3) by ring,
      Nat.mul_add_div (by positivity), Nat.div_eq_of_lt hr, Nat.add_zero,
      show p0 * 2 ^ 32 + p1 = 2 ^ 32 * p0 + p1 by ring, Nat.mul_add_mod,
      Nat.mod_eq_of_lt h1]
  have g2 : combined >>> 32 % 2 ^ 32 = p2 := by
    rw [Nat.shiftRight_eq_div_pow, hcomb]
    have hr : p3 < 2 ^ 32 := h3
    rw [show p0 * 2 ^ 96 + p1 * 2 ^ 64 + p2 * 2 ^ 32 + p3 =
      2 ^ 32 * (p0 * 2 ^ 64 + p1 * 2 ^ 32 + p2) + p3 by ring,
      Nat.mul_add_div (by positivity), Nat.div_eq_of_lt hr, Nat.add_zero,
      show p0 * 2 ^ 64 + p1 * 2 ^ 32 + p2 = 2 ^ 32 * (p0 * 2 ^ 32 + p1) + p2 by ring,
      Nat.mul_add_mod, Nat.mod_eq_of_lt h2]
  have g3 : combined % 2 ^ 32 = p3 := by
    rw [hcomb,
      show p0 * 2 ^ 96 + p1 * 2 ^ 64 + p2 * 2 ^ 32 + p3 =
        2 ^ 32 * (p0 * 2 ^ 64 + p1 * 2 ^ 32 + p2) + p3 by ring,
      Nat.mul_add_mod, Nat.mod_eq_of_lt h3]
  rw [g0, g1, g2, g3]
end Infiltrator

/-- C1: for every list of exactly 4 integers, `uuid_from_int_list` masks each
to 32 bits unsigned (two's-complement wrap for negatives), combines them as
`((i0 << 32 | i1) << 64) | (i2 << 32 | i3)` and renders 32 lowercase hex
digits hyphenated 8-4-4-4-12; re-splitting the returned string into four
32-bit unsigned groups (high/low 64-bit split) reproduces the masked inputs,
and `[0, 1, 0, 2]` yields `00000000-0000-0001-0000-000000000002`. -/
theorem C1_uuid_roundtrip :
    (∀ ints : List ℤ, ints.length = 4 →
      Infiltrator.uuid_from_int_list ints =
        some (Infiltrator.uuidFormat (Infiltrator.uuidCombine (ints.map Infiltrator.mask32))) ∧
      Infiltrator.uuidResplit
          (Infiltrator.uuidFormat (Infiltrator.uuidCombine (ints.map Infiltrator.mask32))) =
        ints.map Infiltrator.mask32) ∧
    Infiltrator.uuid_from_int_list [0, 1, 0, 2] =
      some "00000000-0000-0001-0000-000000000002" := by
  constructor
  · intro ints h
    rcases ints with _ | ⟨a, _ | ⟨b, _ | ⟨c, _ | ⟨d, _ | ⟨e, tl⟩⟩⟩⟩⟩ <;>
      simp only [List.length] at h <;> try omega
    constructor
    · simp [Infiltrator.uuid_from_int_list]
    · simp only [List.map]
      exact Infiltrator.uuidCombine_resplit (Infiltrator.mask32_lt a)
        (Infiltrator.mask32_lt b) (Infiltrator.mask32_lt c) (Infiltrator.mask32_lt d)
  · rfl

namespace PyFloat
theorem rhe_bounds {q : ℚ} {a b : ℤ} (ha : (a : ℚ) ≤ q) (hb : q < (b : ℚ)) :
    a ≤ rhe q ∧ rhe q ≤ b := by
  have hfl : a ≤ ⌊q⌋ := Int.le_floor.mpr ha
  have hfu : ⌊q⌋ < b := Int.floor_lt.mpr hb
  unfold rhe
  split_ifs <;> omega
end PyFloat

namespace PyFloat
theorem pyInt_of_nonneg {q : ℚ} (h : 0 ≤ q) : pyInt q = ⌊q⌋ := by
  unfold pyInt
  rw [if_neg (not_lt.mpr h)]
end PyFloat

namespace PyFloat
theorem intRepr_of_nonneg {z : ℤ} (h : 0 ≤ z) : intRepr z = Nat.repr z.toNat := by
  unfold intRepr
  rw [if_neg (by omega)]
end PyFloat

namespace PyFloat
theorem floor_natCast_div (c m : ℕ) : (⌊(c : ℚ) / (m : ℚ)⌋).toNat = c / m := by
  rw [Int.floor_toNat, Nat.floor_div_nat, Nat.floor_natCast]
end PyFloat

theorem replace_strip_digits_eq : ∀ k : ℕ, k < 101 → 10 ≤ k →
    PyStr.replaceDot0 ((Nat.repr (k / 10) ++ "." ++ Nat.repr (k % 10)).toList) =
      PyStr.stripDot0L ((Nat.repr (k / 10) ++ "." ++ Nat.repr (k % 10)).toList) := by
  decide

theorem fmt1_replace_eq_strip {q : ℚ} (h1 : 1 ≤ q) (h2 : q < 10) :
    PyStr.replaceDot0 (PyFloat.fmt1 q).toList = PyStr.stripDot0L (PyFloat.fmt1 q).toList := by
  have hb := PyFloat.rhe_bounds (a := 10) (b := 100) (q := 10 * q)
    (by push_cast; linarith) (by push_cast; linarith)
  have hk : (PyFloat.rhe (10 * q)).toNat < 101 ∧ 10 ≤ (PyFloat.rhe (10 * q)).toNat := by
    omega
  unfold PyFloat.fmt1
  exact replace_strip_digits_eq _ hk.1 hk.2

theorem fcLoop_eq (sfxs : List String) : ∀ n : ℚ, 1000 ≤ n →
    DataParser.fcLoop n sfxs = BackpackVisualizer.fcLoop n sfxs := by
  induction sfxs with
  | nil => intro n _; rfl
  | cons s rest ih =>
    intro n hn
    have h1 : 1 ≤ n / 1000 := by
      rw [le_div_iff (by norm_num)]; linarith
    simp only [DataParser.fcLoop, BackpackVisualizer.fcLoop]
    split_ifs with hlt hge
    · rfl
    · rw [fmt1_replace_eq_strip h1 (by linarith [not_le.mp hge])]
    · exact ih _ (by linarith [not_lt.mp hlt])

theorem guard_lt_iff (c i : ℕ) : (c : ℚ) / (1000 : ℚ) ^ i < 1000 ↔ c < 1000 ^ (i + 1) := by
  rw [div_lt_iff (by positivity)]
  rw [show ((1000 : ℚ) * 1000 ^ i) = ((1000 ^ (i + 1) : ℕ) : ℚ) by push_cast; ring]
  exact_mod_cast Iff.rfl

theorem guard_ge10_iff (c i : ℕ) :
    10 ≤ (c : ℚ) / (1000 : ℚ) ^ i ↔ 10 * 1000 ^ i ≤ c := by
  rw [le_div_iff (by positivity)]
  rw [show ((10 : ℚ) * 1000 ^ i) = ((10 * 1000 ^ i : ℕ) : ℚ) by push_cast; ring]
  exact_mod_cast Iff.rfl

theorem div_pow_step (c i : ℕ) :
    (c : ℚ) / (1000 : ℚ) ^ i / 1000 = (c : ℚ) / (1000 : ℚ) ^ (i + 1) := by
  rw [div_div, ← pow_succ]

theorem int_out_eq (c m : ℕ) :
    PyFloat.intRepr (PyFloat.pyInt ((c : ℚ) / ((m : ℕ) : ℚ))) = Nat.repr (c / m) := by
  have hq : (0 : ℚ) ≤ (c : ℚ) / (m : ℚ) := by positivity
  rw [PyFloat.pyInt_of_nonneg hq, PyFloat.intRepr_of_nonneg (Int.floor_nonneg.mpr hq),
    PyFloat.floor_natCast_div]

theorem int_out_pow (c i : ℕ) :
    PyFloat.intRepr (PyFloat.pyInt ((c : ℚ) / (1000 : ℚ) ^ i)) = Nat.repr (c / 1000 ^ i) := by
  have hcast : ((1000 : ℚ)) ^ i = ((1000 ^ i : ℕ) : ℚ) := by push_cast; ring
  rw [hcast, int_out_eq c (1000 ^ i)]

theorem fcLoop_skip (c i : ℕ) (s : String) (rest : List String)
    (h : 1000 ^ (i + 2) ≤ c) :
    DataParser.fcLoop ((c : ℚ) / (1000 : ℚ) ^ i) (s :: rest) =
      DataParser.fcLoop ((c : ℚ) / (1000 : ℚ) ^ (i + 1)) rest := by
  simp only [DataParser.fcLoop]
  rw [div_pow_step, if_neg]
  rw [guard_lt_iff]
  have e1 : (1000 : ℕ) ^ (i + 1 + 1) = 1000 ^ (i + 2) := by ring
  omega

theorem fcLoop_hit_int (c i : ℕ) (s : String) (rest : List String)
    (hlo : 10 * 1000 ^ (i + 1) ≤ c) (hhi : c < 1000 ^ (i + 2)) :
    DataParser.fcLoop ((c : ℚ) / (1000 : ℚ) ^ i) (s :: rest) =
      Nat.repr (c / 1000 ^ (i + 1)) ++ s := by
  have e1 : (1000 : ℕ) ^ (i + 1 + 1) = 1000 ^ (i + 2) := by ring
  simp only [DataParser.fcLoop]
  rw [div_pow_step, if_pos (by rw [guard_lt_iff]; omega),
    if_pos (by rw [guard_ge10_iff]; omega), int_out_pow]

theorem fcLoop_hit_dec (c i : ℕ) (s : String) (rest : List String)
    (hlo : ¬ 10 * 1000 ^ (i + 1) ≤ c) (hhi : c < 1000 ^ (i + 2)) :
    DataParser.fcLoop ((c : ℚ) / (1000 : ℚ) ^ i) (s :: rest) =
      String.mk
        (PyStr.replaceDot0 (PyFloat.fmt1 ((c : ℚ) / (1000 : ℚ) ^ (i + 1))).toList) ++ s := by
  have e1 : (1000 : ℕ) ^ (i + 1 + 1) = 1000 ^ (i + 2) := by ring
  simp only [DataParser.fcLoop]
  rw [div_pow_step, if_pos (by rw [guard_lt_iff]; omega),
    if_neg (by rw [guard_ge10_iff]; omega)]

/-- C2: data_parser.format_count returns `str(count)` verbatim below 10000;
at or above 10^15 (a fifth tier would be needed) it returns the literal
string `INF`; in between it picks the first suffix tier t (k, M, B, T) at
which the value scaled by 1000^(t+1) is below 1000, printing the truncated
integer when the scaled value is at least 10 and one decimal place with the
trailing `.0` stripped when it is below 10.  Python float arithmetic is
modelled by exact rationals. -/
theorem C2_format_count (count : ℕ) (hpos : 0 < count) :
    (count < 10000 → DataParser.format_count count = Nat.repr count) ∧
    (10 ^ 15 ≤ count → DataParser.format_count count = "INF") ∧
    (∀ t : ℕ, t < 4 → 10000 ≤ count → 1000 ^ (t + 1) ≤ count → count < 1000 ^ (t + 2) →
      DataParser.format_count count =
        (if 10 * 1000 ^ (t + 1) ≤ count
          then Nat.repr (count / 1000 ^ (t + 1))
          else String.mk
            (PyStr.replaceDot0
              (PyFloat.fmt1 ((count : ℚ) / (1000 : ℚ) ^ (t + 1))).toList)) ++
          tierSuffix t) := by
  have h0 : (count : ℚ) = (count : ℚ) / (1000 : ℚ) ^ 0 := by norm_num
  refine ⟨?_, ?_, ?_⟩
  · intro h
    simp [DataParser.format_count, h]
  · intro h
    have h15 : 1000 ^ 5 ≤ count := by norm_num at h ⊢; omega
    unfold DataParser.format_count
    rw [if_neg (by norm_num at h15 ⊢; omega), h0,
      fcLoop_skip count 0 _ _ (by norm_num at h15 ⊢; omega),
      fcLoop_skip count 1 _ _ (by norm_num at h15 ⊢; omega),
      fcLoop_skip count 2 _ _ (by norm_num at h15 ⊢; omega),
      fcLoop_skip count 3 _ _ (by norm_num at h15 ⊢; omega)]
    rfl
  · intro t ht h4 hl hu
    unfold DataParser.format_count
    rw [if_neg (by omega)]
    nth_rewrite 1 [h0]
    interval_cases t
    · rw [if_pos (by norm_num at h4 ⊢; omega),
        fcLoop_hit_int count 0 _ _ (by norm_num at h4 ⊢; omega) hu]
      rfl
    · rw [fcLoop_skip count 0 _ _ (by norm_num at hl ⊢; omega)]
      by_cases hb : 10 * 1000 ^ (1 + 1) ≤ count
      · rw [if_pos hb, fcLoop_hit_int count 1 _ _ hb hu]
        rfl
      · rw [if_neg hb, fcLoop_hit_dec count 1 _ _ hb hu]
        rfl
    · rw [fcLoop_skip count 0 _ _ (by norm_num at hl ⊢; omega),
        fcLoop_skip count 1 _ _ (by norm_num at hl ⊢; omega)]
      by_cases hb : 10 * 1000 ^ (2 + 1) ≤ count
      · rw [if_pos hb, fcLoop_hit_int count 2 _ _ hb hu]
        rfl
      · rw [if_neg hb, fcLoop_hit_dec count 2 _ _ hb hu]
        rfl
    · rw [fcLoop_skip count 0 _ _ (by norm_num at hl ⊢; omega),
        fcLoop_skip count 1 _ _ (by norm_num at hl ⊢; omega),
        fcLoop_skip count 2 _ _ (by norm_num at hl ⊢; omega)]
      by_cases hb : 10 * 1000 ^ (3 + 1) ≤ count
      · rw [if_pos hb, fcLoop_hit_int count 3 _ _ hb hu]
        rfl
      · rw [if_neg hb, fcLoop_hit_dec count 3 _ _ hb hu]
        rfl

theorem fmt1_eval (q : ℚ) (z : ℤ) (h1 : ⌊10 * q⌋ = z) (h2 : 10 * q - (z : ℚ) < 1 / 2) :
    PyFloat.fmt1 q = Nat.repr (z.toNat / 10) ++ "." ++ Nat.repr (z.toNat % 10) := by
  unfold PyFloat.fmt1 PyFloat.rhe
  rw [h1, if_pos h2]

/-- Witness for C2: the concrete examples named in the claim, each obtained
by instantiating the characterization theorem. -/
theorem C2_format_count_witness :
    DataParser.format_count 9999 = "9999" ∧
    DataParser.format_count 10000 = "10k" ∧
    DataParser.format_count 15000 = "15k" ∧
    DataParser.format_count 999999 = "999k" ∧
    DataParser.format_count 1000000 = "1M" ∧
    DataParser.format_count 1234567 = "1.2M" ∧
    DataParser.format_count 2000000 = "2M" := by
  refine ⟨?_, ?_, ?_, ?_, ?_, ?_, ?_⟩
  · rw [(C2_format_count 9999 (by norm_num)).1 (by norm_num)]
    rfl
  · have h := (C2_format_count 10000 (by norm_num)).2.2 0 (by norm_num) (by norm_num)
      (by norm_num) (by norm_num)
    rw [if_pos (by norm_num)] at h
    rw [h]
    rfl
  · have h := (C2_format_count 15000 (by norm_num)).2.2 0 (by norm_num) (by norm_num)
      (by norm_num) (by norm_num)
    rw [if_pos (by norm_num)] at h
    rw [h]
    rfl
  · have h := (C2_format_count 999999 (by norm_num)).2.2 0 (by norm_num) (by norm_num)
      (by norm_num) (by norm_num)
    rw [if_pos (by norm_num)] at h
    rw [h]
    rfl
  · have h := (C2_format_count 1000000 (by norm_num)).2.2 1 (by norm_num) (by norm_num)
      (by norm_num) (by norm_num)
    rw [if_neg (by norm_num),
      fmt1_eval _ 10 (by norm_num [Int.floor_eq_iff]) (by norm_num)] at h
    rw [h]
    rfl
  · have h := (C2_format_count 1234567 (by norm_num)).2.2 1 (by norm_num) (by norm_num)
      (by norm_num) (by norm_num)
    rw [if_neg (by norm_num),
      fmt1_eval _ 12 (by norm_num [Int.floor_eq_iff]) (by norm_num)] at h
    rw [h]
    rfl
  · have h := (C2_format_count 2000000 (by norm_num)).2.2 1 (by norm_num) (by norm_num)
      (by norm_num) (by norm_num)
    rw [if_neg (by norm_num),
      fmt1_eval _ 20 (by norm_num [Int.floor_eq_iff]) (by norm_num)] at h
    rw [h]
    rfl

/-- C10: the two independent implementations of format_count — one stripping
a trailing `.0` by substring replacement in data_parser.py, the other by an
endswith check in backpack_visualizer.py — return the same string for every
positive integer input. -/
theorem C10_format_count_agree (count : ℕ) (h : 0 < count) :
    DataParser.format_count count = BackpackVisualizer.format_count count := by
  unfold DataParser.format_count BackpackVisualizer.format_count
  split_ifs with hlt
  · rfl
  · refine fcLoop_eq _ _ ?_
    have h4 : (10000 : ℚ) ≤ (count : ℚ) := by exact_mod_cast not_lt.mp hlt
    linarith

/-- Witness for C10 at the concrete input 2000000. -/
theorem C10_format_count_agree_witness :
    0 < 2000000 ∧ DataParser.format_count 2000000 = BackpackVisualizer.format_count 2000000 :=
  ⟨by norm_num, C10_format_count_agree 2000000 (by norm_num)⟩

/-- Witness for C1 at the concrete input `[0, 1, 0, 2]`. -/
theorem C1_uuid_roundtrip_witness :
    Infiltrator.uuid_from_int_list [0, 1, 0, 2] =
      some (Infiltrator.uuidFormat
        (Infiltrator.uuidCombine (([0, 1, 0, 2] : List ℤ).map Infiltrator.mask32))) ∧
    Infiltrator.uuidResplit
        (Infiltrator.uuidFormat
          (Infiltrator.uuidCombine (([0, 1, 0, 2] : List ℤ).map Infiltrator.mask32))) =
      ([0, 1, 0, 2] : List ℤ).map Infiltrator.mask32 :=
  C1_uuid_roundtrip.1 [0, 1, 0, 2] rfl

namespace Nbt
theorem containsBC_map (kvs : List (String × Node)) :
    containsBC (Node.map kvs) = hasKey kvs "backpackContents" := rfl
end Nbt

namespace Nbt
theorem opt_some_or {α : Type} (a : α) (o : Option α) : (some a).or o = some a := rfl
end Nbt

namespace Nbt
theorem opt_none_or {α : Type} (o : Option α) : (Option.none : Option α).or o = o := rfl
end Nbt

namespace Nbt
theorem processNode_find (n : Node) :
    (processNode n).1 = (candsOf n).find? containsBC ∧
    ((processNode n).1 = none → (processNode n).2 = childrenOf n) := by
  cases n with
  | map kvs =>
    by_cases hbc : hasKey kvs "backpackContents"
    · constructor
      · simp [processNode, candsOf, hbc, List.find?, containsBC_map]
      · intro h
        simp [processNode, hbc] at h
    · cases hd : assocFind kvs "data" with
      | none =>
        constructor
        · simp [processNode, candsOf, hbc, hd, List.find?, containsBC_map]
        · intro _
          simp [processNode, candsOf, hbc, hd, childrenOf]
      | some d =>
        by_cases hdbc : containsBC d = true
        · constructor
          · simp [processNode, candsOf, hbc, hd, hdbc, List.find?, containsBC_map]
          · intro h
            simp [processNode, hbc, hd, hdbc] at h
        · constructor
          · simp [processNode, candsOf, hbc, hd, hdbc, List.find?, containsBC_map]
          · intro _
            simp [processNode, candsOf, hbc, hd, hdbc, childrenOf]
  | list l => exact ⟨rfl, fun _ => rfl⟩
  | vInt n => exact ⟨rfl, fun _ => rfl⟩
  | vStr s => exact ⟨rfl, fun _ => rfl⟩
  | vNull => exact ⟨rfl, fun _ => rfl⟩
end Nbt

namespace Nbt
theorem processLayer_find (layer : List Node) :
    (processLayer layer).1 = (layer.flatMap candsOf).find? containsBC ∧
    ((processLayer layer).1 = none →
      (processLayer layer).2 = layer.flatMap childrenOf) := by
  induction layer with
  | nil => exact ⟨rfl, fun _ => rfl⟩
  | cons n rest ih =>
    obtain ⟨hn1, hn2⟩ := processNode_find n
    cases hpn : (processNode n).1 with
    | some p =>
      constructor
      · have : processLayer (n :: rest) = (some p, []) := by
          simp only [processLayer]
          rw [show processNode n = (some p, (processNode n).2) from by
            rw [← hpn]]
        rw [this]
        simp only [List.flatMap_cons, List.find?_append, ← hn1, hpn, opt_some_or]
      · intro h
        have : processLayer (n :: rest) = (some p, []) := by
          simp only [processLayer]
          rw [show processNode n = (some p, (processNode n).2) from by
            rw [← hpn]]
        rw [this] at h
        simp at h
    | none =>
      have hcs := hn2 hpn
      have hplc : processLayer (n :: rest) =
          ((processLayer rest).1, (processNode n).2 ++ (processLayer rest).2) := by
        simp only [processLayer]
        rw [show processNode n = (none, (processNode n).2) from by rw [← hpn]]
      constructor
      · rw [hplc]
        simp only [List.flatMap_cons, List.find?_append, ← hn1, hpn, opt_none_or]
        exact ih.1
      · intro h
        rw [hplc] at h ⊢
        simp only at h
        simp only [List.flatMap_cons, hcs]
        rw [ih.2 h]
end Nbt

namespace Nbt
theorem searchLoop_find (fuel : ℕ) : ∀ layer : List Node,
    searchLoop fuel layer = (visitSeq fuel layer).find? containsBC := by
  induction fuel with
  | zero => intro layer; rfl
  | succ fuel ih =>
    intro layer
    obtain ⟨h1, h2⟩ := processLayer_find layer
    cases hpl : (processLayer layer).1 with
    | some p =>
      have : searchLoop (fuel + 1) layer = some p := by
        simp only [searchLoop]
        rw [show processLayer layer = (some p, (processLayer layer).2) from by rw [← hpl]]
      rw [this, visitSeq, List.find?_append, ← h1, hpl, opt_some_or]
    | none =>
      have hnext := h2 hpl
      have : searchLoop (fuel + 1) layer = searchLoop fuel (processLayer layer).2 := by
        simp only [searchLoop]
        rw [show processLayer layer = (none, (processLayer layer).2) from by rw [← hpl]]
      rw [this, hnext, visitSeq, List.find?_append, ← h1, hpl, opt_none_or, ih]
end Nbt

/-- C3 corrected: the bounded search equals the first payload-bearing node in
the straight-line visit order of three layers (each layer's nodes contribute
themselves and then their `data` child as the one-level lookahead, so a
payload behind a `data` key three levels below the root is still found); the
returned node always carries the key, and the search yields NotFound exactly
when no visited candidate carries it. -/
theorem C3_payload_locator (doc : Nbt.Node) :
    Nbt.locatePayload doc = (Nbt.visitSeq 3 [doc]).find? Nbt.containsBC ∧
    (∀ p, Nbt.locatePayload doc = some p → Nbt.containsBC p = true) ∧
    (Nbt.locatePayload doc = none ↔
      ∀ p ∈ Nbt.visitSeq 3 [doc], Nbt.containsBC p = false) := by
  have h := Nbt.searchLoop_find 3 [doc]
  refine ⟨h, ?_, ?_⟩
  · intro p hp
    rw [Nbt.locatePayload] at hp
    rw [h] at hp
    exact List.find?_some hp
  · rw [Nbt.locatePayload, h, List.find?_eq_none]
    constructor
    · intro hall p hp
      have := hall p hp
      simpa using this
    · intro hall p hp
      simp [hall p hp]

/-- Counterexample to C3 as stated: in `wrappedDoc` no node within two
nesting levels below the root contains `backpackContents`, yet the search
succeeds (the payload sits at depth three behind a `data` key reached by the
lookahead), contradicting the claimed NotFound. -/
theorem C3_payload_locator_counterexample :
    (Nbt.locatePayload Nbt.wrappedDoc).isSome = true ∧
    (Nbt.allNodesToDepth 2 Nbt.wrappedDoc).all (fun n => !Nbt.containsBC n) = true :=
  ⟨rfl, rfl⟩

/-- Witness for C3 at the concrete document `wrappedDoc`. -/
theorem C3_payload_locator_witness :
    Nbt.locatePayload Nbt.wrappedDoc =
      (Nbt.visitSeq 3 [Nbt.wrappedDoc]).find? Nbt.containsBC :=
  (C3_payload_locator Nbt.wrappedDoc).1

namespace Nbt
theorem upsert_forall {P : ℤ × InvEntry → Prop} {m : List (ℤ × InvEntry)} {k : ℤ}
    {v : InvEntry} (hm : ∀ p ∈ m, P p) (hv : P (k, v)) :
    ∀ p ∈ upsert m k v, P p := by
  intro p hp
  unfold upsert at hp
  split_ifs at hp with hmem
  · obtain ⟨q, hq, hqe⟩ := List.mem_map.mp hp
    by_cases hqk : q.1 = k
    · simp only [hqk, if_pos] at hqe
      exact hqe ▸ hv
    · simp only [hqk, if_neg, if_false] at hqe
      exact hqe ▸ hm q hq
  · rcases List.mem_append.mp hp with h | h
    · exact hm p h
    · simp only [List.mem_singleton] at h
      exact h ▸ hv
end Nbt

namespace Nbt
theorem invGo_forall : ∀ (items : List Node) (i : ℕ) (acc : List (ℤ × InvEntry))
    (m : List (ℤ × InvEntry)),
    (∀ p ∈ acc, p.2.id ≠ "" ∧ PyStr.strContains "air" p.2.id = false) →
    invGo items i acc = some m →
    ∀ p ∈ m, p.2.id ≠ "" ∧ PyStr.strContains "air" p.2.id = false := by
  intro items
  induction items with
  | nil =>
    intro i acc m hacc h
    simp only [invGo, Option.some.injEq] at h
    exact h ▸ hacc
  | cons it rest ih =>
    intro i acc m hacc h
    simp only [invGo] at h
    cases hc : itemCount it with
    | none => rw [hc] at h; exact absurd h (by simp)
    | some cnt =>
      rw [hc] at h
      cases hs : itemSlot it i with
      | none => rw [hs] at h; exact absurd h (by simp)
      | some slot =>
        rw [hs] at h
        refine ih (i + 1) _ m ?_ h
        by_cases hcond : normId (safe_get it "id") ≠ "" ∧
            PyStr.strContains "air" (normId (safe_get it "id")) = false
        · rw [if_pos hcond]
          exact upsert_forall hacc hcond
        · rw [if_neg hcond]
          exact hacc
end Nbt

/-- C6: for every backpack entry normalized by parse_all_backpacks, every
inventory-map value has a nonempty id that does not contain the substring
`air` — an air-marked item occupies no slot key. -/
theorem C6_air_exclusion (idx : List (String × (String × Option ℤ))) (bc : Nbt.Node)
    (r : Nbt.BackpackRec) (h : Nbt.normalizeEntry idx bc = some r) :
    ∀ p ∈ r.inventory, p.2.id ≠ "" ∧ PyStr.strContains "air" p.2.id = false := by
  unfold Nbt.normalizeEntry at h
  cases hu : Nbt.uuidFromNode (Nbt.pyOr (Nbt.safe_get bc "uuid")
      (Nbt.safe_get bc "backpackUuid")) with
  | none => rw [hu] at h; exact absurd h (by simp)
  | some uuid =>
    rw [hu] at h
    simp only at h
    cases hm : Nbt.buildInvMap (Nbt.iter_nbt_list (Nbt.safeGetD
        (Nbt.safeGetD (Nbt.pyOr (Nbt.safe_get bc "contents") (Nbt.Node.map []))
          "inventory" (Nbt.Node.map [])) "Items" (Nbt.Node.list []))) with
    | none => rw [hm] at h; exact absurd h (by simp)
    | some inv_map =>
      rw [hm] at h
      cases hg : Nbt.upgGo (Nbt.iter_nbt_list (Nbt.safeGetD
          (Nbt.safeGetD (Nbt.pyOr (Nbt.safe_get bc "contents") (Nbt.Node.map []))
            "upgradeInventory" (Nbt.Node.map [])) "Items" (Nbt.Node.list []))) with
      | none => rw [hg] at h; exact absurd h (by simp)
      | some upg_list =>
        rw [hg] at h
        simp only [Option.some.injEq] at h
        have hinv : r.inventory = inv_map := by rw [← h]
        rw [hinv]
        exact Nbt.invGo_forall _ 0 [] inv_map (by simp) hm

/-- Witness for C6 at a concrete entry holding one air item and one stone
item: the normalized record exists and every stored inventory id is nonempty
and air-free. -/
theorem C6_air_exclusion_witness :
    Nbt.normalizeEntry [] Nbt.entryWithAir =
      some { backpackUuid := "00000000-0000-0001-0000-000000000002",
             playerName := "Unknown", accessTimeRaw := none,
             inventory := [(1, { id := "minecraft:stone", count := 7 })],
             upgrades := [] } ∧
    ∀ p ∈ ([(1, { id := "minecraft:stone", count := 7 })] :
        List (ℤ × Nbt.InvEntry)), p.2.id ≠ "" ∧
      PyStr.strContains "air" p.2.id = false := by
  constructor
  · rfl
  · have h := C6_air_exclusion [] Nbt.entryWithAir
      { backpackUuid := "00000000-0000-0001-0000-000000000002",
        playerName := "Unknown", accessTimeRaw := none,
        inventory := [(1, { id := "minecraft:stone", count := 7 })],
        upgrades := [] } rfl
    exact h

/-- C8 amended: a count field that is absent (safe_get yields None) is
defaulted to 1 before the int conversion; a count that is present but
unparseable as an integer raises, aborting only that record — the
surrounding stream drops the failing record and continues with the rest. -/
theorem C8_count_tolerance :
    (∀ it : Nbt.Node, Nbt.safe_get it "count" = Nbt.Node.vNull →
      Nbt.itemCount it = some 1) ∧
    (∀ (it : Nbt.Node) (s : String) (kvs : List (String × Nbt.Node)),
      it = Nbt.Node.map kvs →
      Nbt.safe_get it "count" = Nbt.Node.vStr s → Nbt.parseIntStr s = none → s ≠ "" →
      Nbt.itemCount it = none) ∧
    (∀ (idx : List (String × (String × Option ℤ)))
      (pre post : List Nbt.Node) (bad : Nbt.Node),
      Nbt.normalizeEntry idx bad = none →
      (pre ++ bad :: post).filterMap (Nbt.normalizeEntry idx) =
        pre.filterMap (Nbt.normalizeEntry idx) ++
          post.filterMap (Nbt.normalizeEntry idx)) := by
  refine ⟨?_, ?_, ?_⟩
  · intro it h
    unfold Nbt.itemCount Nbt.pyOr
    rw [h]
    rfl
  · intro it s kvs hkvs h hp hs
    unfold Nbt.itemCount Nbt.pyOr
    rw [h]
    have ht : Nbt.truthy (Nbt.Node.vStr s) = true := by
      simp [Nbt.truthy, hs]
    rw [ht]
    simp only [if_true]
    simp [Nbt.pyToInt, hp]
  · intro idx pre post bad hbad
    rw [List.filterMap_append, List.filterMap_cons, hbad]

/-- Counterexample to C8 as stated: an inventory item with the unparseable
count value "abc" does not get count 1 — the int conversion raises and the
whole record is dropped (normalizeEntry yields none), while the same entry
with the count absent is yielded with count 1. -/
theorem C8_count_tolerance_counterexample :
    Nbt.normalizeEntry [] Nbt.entryBadCount = none ∧
    Nbt.normalizeEntry [] Nbt.entryAbsentCount =
      some { backpackUuid := "00000000-0000-0001-0000-000000000002",
             playerName := "Unknown", accessTimeRaw := none,
             inventory := [(0, { id := "minecraft:stone", count := 1 })],
             upgrades := [] } :=
  ⟨rfl, rfl⟩

/-- Witness for C8 at concrete inputs: an item without a count field gets
count 1, an item with count "abc" raises, and a stream around a failing
record keeps its other records. -/
theorem C8_count_tolerance_witness :
    Nbt.itemCount (Nbt.Node.map [("id", Nbt.Node.vStr "minecraft:stone")]) = some 1 ∧
    Nbt.itemCount (Nbt.Node.map [("count", Nbt.Node.vStr "abc")]) = none ∧
    ([Nbt.entryAbsentCount] ++ Nbt.entryBadCount :: [Nbt.entryAbsentCount]).filterMap
        (Nbt.normalizeEntry []) =
      [Nbt.entryAbsentCount].filterMap (Nbt.normalizeEntry []) ++
        [Nbt.entryAbsentCount].filterMap (Nbt.normalizeEntry []) :=
  ⟨C8_count_tolerance.1 (Nbt.Node.map [("id", Nbt.Node.vStr "minecraft:stone")]) rfl,
   C8_count_tolerance.2.1 (Nbt.Node.map [("count", Nbt.Node.vStr "abc")]) "abc"
     [("count", Nbt.Node.vStr "abc")] rfl rfl rfl (by decide),
   C8_count_tolerance.2.2 [] [Nbt.entryAbsentCount] [Nbt.entryAbsentCount]
     Nbt.entryBadCount rfl⟩

namespace Font
theorem assocFind_width_eq : ∀ l1 l2 : List (Char × (Img × ℕ)),
    l1.map (fun p => (p.1, p.2.2)) = l2.map (fun p => (p.1, p.2.2)) →
    ∀ c, (assocFind l1 c).map Prod.snd = (assocFind l2 c).map Prod.snd := by
  intro l1
  induction l1 with
  | nil =>
    intro l2 h c
    cases l2 with
    | nil => rfl
    | cons q rest2 => simp at h
  | cons p rest ih =>
    intro l2 h c
    cases l2 with
    | nil => simp at h
    | cons q rest2 =>
      simp only [List.map_cons, List.cons.injEq, Prod.mk.injEq] at h
      obtain ⟨⟨hk, hv⟩, hrest⟩ := h
      unfold assocFind
      by_cases hc : p.1 = c
      · rw [if_pos hc, if_pos (hk ▸ hc)]
        simp [hv]
      · rw [if_neg hc, if_neg (hk ▸ hc)]
        exact ih rest2 hrest c
end Font

namespace Font
theorem glyphFor_width_eq {f f2 : BitmapFont}
    (hw : f.chars.map (fun p => (p.1, p.2.2)) = f2.chars.map (fun p => (p.1, p.2.2)))
    (c : Char) :
    (glyphFor f c).map Prod.snd = (glyphFor f2 c).map Prod.snd := by
  have h1 := assocFind_width_eq f.chars f2.chars hw c
  have h2 := assocFind_width_eq f.chars f2.chars hw '?'
  unfold glyphFor
  cases ha : assocFind f.chars c with
  | none =>
    cases hb : assocFind f2.chars c with
    | none => exact h2
    | some tc2 => rw [ha, hb] at h1; simp at h1
  | some tc =>
    cases hb : assocFind f2.chars c with
    | none => rw [ha, hb] at h1; simp at h1
    | some tc2 => rw [ha, hb] at h1; exact h1
end Font

namespace Font
theorem renderResolve_width_eq {f f2 : BitmapFont}
    (hw : f.chars.map (fun p => (p.1, p.2.2)) = f2.chars.map (fun p => (p.1, p.2.2))) :
    ∀ text : List Char,
      (renderResolve f text).map Prod.snd = (renderResolve f2 text).map Prod.snd := by
  intro text
  induction text with
  | nil => rfl
  | cons c rest ih =>
    have hg := glyphFor_width_eq hw c
    simp only [renderResolve, List.map_cons, List.filterMap_cons] at ih ⊢
    cases ha : glyphFor f c with
    | none =>
      cases hb : glyphFor f2 c with
      | none => exact ih
      | some tc2 => rw [ha, hb] at hg; simp at hg
    | some tc =>
      cases hb : glyphFor f2 c with
      | none => rw [ha, hb] at hg; simp at hg
      | some tc2 =>
        rw [ha, hb] at hg
        have hg2 : tc.2 = tc2.2 := Option.some.inj hg
        simpa [hg2] using ih
end Font

namespace Font
theorem render_width_formula (f : BitmapFont) (text : List Char) (color : ℕ × ℕ × ℕ)
    (shadow : Bool) :
    (render f text color shadow).2.1 =
      ((renderResolve f text).map Prod.snd).sum +
        ((renderResolve f text).length - 1) * 1 := by
  unfold render
  by_cases he : text.isEmpty
  · rw [if_pos he]
    have : text = [] := List.isEmpty_iff.mp he
    subst this
    rfl
  · rw [if_neg he]
    by_cases hr : (renderResolve f text).isEmpty
    · rw [if_pos hr]
      have : renderResolve f text = [] := List.isEmpty_iff.mp hr
      rw [this]
      rfl
    · rw [if_neg hr]
      simp only
      omega
end Font

/-- C9: the total width and the height returned by BitmapFont.render depend
only on the text — they are identical across any two colors and any two
shadow flags. -/
theorem C9_render_width_stability (f : Font.BitmapFont) (text : List Char)
    (color1 color2 : ℕ × ℕ × ℕ) (shadow1 shadow2 : Bool) :
    (Font.render f text color1 shadow1).2 = (Font.render f text color2 shadow2).2 := by
  unfold Font.render
  by_cases he : text.isEmpty
  · rw [if_pos he, if_pos he]
  · rw [if_neg he, if_neg he]
    by_cases hr : (Font.renderResolve f text).isEmpty
    · rw [if_pos hr, if_pos hr]
    · rw [if_neg hr, if_neg hr]

/-- C4 amended: BitmapFont.render substitutes the glyph of the question mark
for characters with no specific glyph; characters with neither a specific
nor a fallback glyph are dropped entirely (no width, no gap); the returned
total width is the sum of the resolved tight widths plus one pixel of gap
between consecutive resolved entries, and it depends only on the per-
character widths — never on the glyph images, the color or the shadow flag. -/
theorem C4_render_width (f f2 : Font.BitmapFont) (text : List Char)
    (color color2 : ℕ × ℕ × ℕ) (shadow shadow2 : Bool)
    (hw : f.chars.map (fun p => (p.1, p.2.2)) = f2.chars.map (fun p => (p.1, p.2.2))) :
    (∀ c, assocFind f.chars c = none →
      Font.glyphFor f c = assocFind f.chars '?') ∧
    (Font.render f text color shadow).2.1 =
      ((Font.renderResolve f text).map Prod.snd).sum +
        ((Font.renderResolve f text).length - 1) * 1 ∧
    (Font.render f text color shadow).2.1 = (Font.render f2 text color2 shadow2).2.1 := by
  refine ⟨?_, Font.render_width_formula f text color shadow, ?_⟩
  · intro c hc
    unfold Font.glyphFor
    rw [hc]
  · have hmap := Font.renderResolve_width_eq hw text
    have hlen : (Font.renderResolve f text).length = (Font.renderResolve f2 text).length := by
      have := congrArg List.length hmap
      simpa using this
    rw [Font.render_width_formula f text color shadow,
      Font.render_width_formula f2 text color2 shadow2, hmap, hlen]

/-- Witness for C4 with two fonts sharing widths but differing glyph images. -/
theorem C4_render_width_witness :
    (Font.fontNoFallback.chars.map (fun p => (p.1, p.2.2)) =
      (Font.BitmapFont.mk [('a', (Font.blankImg 3 3, 5))] 8).chars.map
        (fun p => (p.1, p.2.2))) ∧
    (Font.render Font.fontNoFallback ['a', 'b', 'a'] (255, 255, 255) true).2.1 =
      ((Font.renderResolve Font.fontNoFallback ['a', 'b', 'a']).map Prod.snd).sum +
        ((Font.renderResolve Font.fontNoFallback ['a', 'b', 'a']).length - 1) * 1 ∧
    (Font.render Font.fontNoFallback ['a', 'b', 'a'] (255, 255, 255) true).2.1 =
      (Font.render (Font.BitmapFont.mk [('a', (Font.blankImg 3 3, 5))] 8)
        ['a', 'b', 'a'] (0, 0, 0) false).2.1 :=
  ⟨rfl,
    (C4_render_width Font.fontNoFallback (Font.BitmapFont.mk [('a', (Font.blankImg 3 3, 5))] 8)
      ['a', 'b', 'a'] (255, 255, 255) (0, 0, 0) true false rfl).2.1,
    (C4_render_width Font.fontNoFallback (Font.BitmapFont.mk [('a', (Font.blankImg 3 3, 5))] 8)
      ['a', 'b', 'a'] (255, 255, 255) (0, 0, 0) true false rfl).2.2⟩

/-- Counterexample to C4 as stated: with no question-mark fallback, the
character b is dropped outright — the rendered width is 11 (two glyphs of
width 5 and one gap), not the claimed 12 that would include the dropped
character's cursor advance. -/
theorem C4_render_width_counterexample :
    (Font.render Font.fontNoFallback ['a', 'b', 'a'] (255, 255, 255) true).2.1 = 11 ∧
    Font.renderWidthClaimed Font.fontNoFallback ['a', 'b', 'a'] = 12 ∧
    (Font.render Font.fontNoFallback ['a', 'b', 'a'] (255, 255, 255) true).2.1 ≠
      Font.renderWidthClaimed Font.fontNoFallback ['a', 'b', 'a'] := by
  refine ⟨rfl, rfl, ?_⟩
  intro h
  rw [show (Font.render Font.fontNoFallback ['a', 'b', 'a'] (255, 255, 255) true).2.1 = 11
    from rfl] at h
  rw [show Font.renderWidthClaimed Font.fontNoFallback ['a', 'b', 'a'] = 12 from rfl] at h
  omega

namespace ImageGenerator
theorem chain_step (prev alt : Option Rect) (g : Prop) [Decidable g] :
    (if prev = none ∧ g then alt else prev) = prev.or (if g then alt else none) := by
  by_cases hg : g <;> cases prev <;> simp [hg, Option.or]
end ImageGenerator

namespace ImageGenerator
theorem head_filterMap_or {α : Type} : ∀ l : List (Option α),
    (l.filterMap id).head? = l.foldr Option.or none := by
  intro l
  induction l with
  | nil => rfl
  | cons a rest ih =>
    cases a with
    | none => simpa [List.filterMap_cons] using ih
    | some x => simp [List.filterMap_cons, Option.or]
end ImageGenerator

namespace ImageGenerator
theorem opt_or_assoc {α : Type} (a b c : Option α) : (a.or b).or c = a.or (b.or c) := by
  cases a <;> rfl
end ImageGenerator

namespace ImageGenerator
theorem opt_or_none_right {α : Type} (a : Option α) : a.or none = a := by
  cases a <;> rfl
end ImageGenerator

/-- C7 amended: get_texture_from_atlas returns the first succeeding
resolution step in source order — exact normalized id; the default namespace
prepended when the id has no separator; the default namespace stripped when
present; the container substring fallbacks chest, barrel, shulker mapping to
fixed sprites; and None when every step fails.  The version in
image_generator.py has no short-name fallback. -/
theorem C7_atlas_resolution (atlas : List (String × ImageGenerator.Rect))
    (item_id : String) :
    ImageGenerator.get_texture_from_atlas atlas item_id =
      ((ImageGenerator.resolutionSteps atlas
        (ImageGenerator.cleanId item_id)).filterMap id).head? := by
  rw [ImageGenerator.head_filterMap_or]
  unfold ImageGenerator.get_texture_from_atlas ImageGenerator.resolutionSteps
  simp only [ImageGenerator.chain_step, List.foldr]
  rw [ImageGenerator.opt_or_none_right, ImageGenerator.opt_or_assoc,
    ImageGenerator.opt_or_assoc, ImageGenerator.opt_or_assoc,
    ImageGenerator.opt_or_assoc]

/-- Counterexample to C7 as stated: with the atlas {foo:apple} and the id
"apple", the claimed short-name fallback would resolve to the foo:apple
sprite, but image_generator.get_texture_from_atlas returns None. -/
theorem C7_atlas_resolution_counterexample :
    ImageGenerator.get_texture_from_atlas ImageGenerator.atlasShort "apple" = none ∧
    ImageGenerator.get_texture_claimed ImageGenerator.atlasShort "apple" =
      some (1, 2, 3, 4) ∧
    ImageGenerator.get_texture_from_atlas ImageGenerator.atlasShort "apple" ≠
      ImageGenerator.get_texture_claimed ImageGenerator.atlasShort "apple" := by
  refine ⟨rfl, rfl, ?_⟩
  intro h
  rw [show ImageGenerator.get_texture_from_atlas ImageGenerator.atlasShort "apple" = none
    from rfl] at h
  rw [show ImageGenerator.get_texture_claimed ImageGenerator.atlasShort "apple" =
    some (1, 2, 3, 4) from rfl] at h
  exact Option.noConfusion h

/-- C5: for a backpack record with at least one upgrade, with upgrade block
width n*128 + (n-1)*10 and default left edge img_width - 24 - that width,
the upgrade row moves below the text block left-aligned at the text start x
exactly when the text right edge (text_start_x + max_text_width) plus 20
exceeds that default left edge, the row then sitting strictly below the text
block with the header height grown to fit; otherwise the upgrades stay in
the default top-right row growing leftward from img_width - 24 - 128. -/
theorem C5_layout_collision (w : ℤ) (n : ℕ) (hn : 1 ≤ n) :
    ((ImageGenerator.backpackLayout w n).collision = true ↔
      184 + w + 20 > 1200 - 24 - ((n : ℤ) * 128 + ((n : ℤ) - 1) * 10)) ∧
    ((ImageGenerator.backpackLayout w n).collision = true →
      (ImageGenerator.backpackLayout w n).upgStartX =
        (ImageGenerator.backpackLayout w n).textStartX ∧
      (ImageGenerator.backpackLayout w n).textStartX = 184 ∧
      (ImageGenerator.backpackLayout w n).textBlockBottom <
        (ImageGenerator.backpackLayout w n).upgY ∧
      (ImageGenerator.backpackLayout w n).headerHeight =
        max (max 240 ((ImageGenerator.backpackLayout w n).textBlockBottom + 24))
          ((ImageGenerator.backpackLayout w n).upgY + 128 + 20) ∧
      ∀ i : ℕ, ImageGenerator.upgSlotX (ImageGenerator.backpackLayout w n) i =
        184 + (i : ℤ) * 138) ∧
    ((ImageGenerator.backpackLayout w n).collision = false →
      (ImageGenerator.backpackLayout w n).upgY = 84 ∧
      (ImageGenerator.backpackLayout w n).headerHeight =
        max 240 ((ImageGenerator.backpackLayout w n).textBlockBottom + 24) ∧
      ∀ i : ℕ, ImageGenerator.upgSlotX (ImageGenerator.backpackLayout w n) i =
        (1200 - 24 - 128) - (i : ℤ) * 138) := by
  have hmax : max (0 : ℤ) ((n : ℤ) - 1) = (n : ℤ) - 1 := by
    have : (1 : ℤ) ≤ (n : ℤ) := by exact_mod_cast hn
    omega
  have hn0 : 0 < n := hn
  unfold ImageGenerator.backpackLayout
  rw [if_pos hn0]
  by_cases hc : 24 + 128 + 32 + w + 20 > 9 * 128 + 24 * 2 - 24 -
      ((n : ℤ) * 128 + max 0 ((n : ℤ) - 1) * 10)
  · rw [if_pos hc]
    refine ⟨?_, ?_, ?_⟩
    · simp only
      constructor
      · intro _
        rw [hmax] at hc
        omega
      · intro _
        trivial
    · intro _
      refine ⟨rfl, rfl, by norm_num, rfl, ?_⟩
      intro i
      simp [ImageGenerator.upgSlotX]
    · intro h
      simp at h
  · rw [if_neg hc]
    refine ⟨?_, ?_, ?_⟩
    · simp only
      constructor
      · intro h
        simp at h
      · intro h
        rw [hmax] at hc
        omega
    · intro h
      simp at h
    · intro _
      refine ⟨rfl, rfl, ?_⟩
      intro i
      simp [ImageGenerator.upgSlotX]

/-- Witness for C5 at a colliding width (w = 1000, n = 1) exercising the
relocation branch. -/
theorem C5_layout_collision_witness :
    (1 : ℕ) ≤ 1 ∧
    ((ImageGenerator.backpackLayout 1000 1).collision = true ↔
      184 + (1000 : ℤ) + 20 > 1200 - 24 - ((1 : ℤ) * 128 + ((1 : ℤ) - 1) * 10)) :=
  ⟨le_refl 1, (C5_layout_collision 1000 1 (le_refl 1)).1⟩
